import Mathlib

/-!
Verification of the molecule-catalog backend (CSV/SDF ingestion and the
dynamic query engine) against its specification.  The definitions below are a
shallow embedding of the Python sources under `backend/`: pandas cells become
an explicit `Cell` type, Python's permissive `float`/`int` string coercions
become partial parsers into exact rationals, raising code returns `Except`,
and the database becomes explicit state (lists of typed rows, or key-indexed
stores for the geometry tables).
-/

deriving instance DecidableEq for Except

namespace DataViz

/-- One pandas DataFrame cell as the ingestion code can observe it after
`pd.read_csv`: missing/NaN (`pd.isna` true), an already-numeric value, or a
raw string (a cell of an object-dtype column). -/
inductive Cell where
  | na
  | num (q : ℚ)
  | text (s : String)
deriving DecidableEq

/-- Strip leading and trailing whitespace from a character list. -/
def stripChars (cs : List Char) : List Char :=
  ((cs.dropWhile Char.isWhitespace).reverse.dropWhile Char.isWhitespace).reverse

/-- Python `str.strip()` (kernel-computable: the standard strip over the
string's character data; exotic Unicode space classes are not modelled). -/
def pyStrip (s : String) : String := ⟨stripChars s.data⟩

/-- Python `str.lower()` (ASCII case folding, which covers every string the
code compares against). -/
def pyLower (s : String) : String := ⟨s.data.map Char.toLower⟩

/-- Value of a list of decimal digit characters. -/
def digitsToNat (cs : List Char) : ℕ :=
  cs.foldl (fun a c => 10 * a + (c.toNat - 48)) 0

/-- Mantissa of a Python float literal: digits with an optional dot and
fractional digits (at least one digit in total).  Returns the value and the
unconsumed characters. -/
def parseMantissa (cs : List Char) : Option (ℚ × List Char) :=
  let ip := cs.takeWhile Char.isDigit
  let r1 := cs.dropWhile Char.isDigit
  match r1 with
  | '.' :: r2 =>
    let fp := r2.takeWhile Char.isDigit
    let r3 := r2.dropWhile Char.isDigit
    if ip.isEmpty && fp.isEmpty then none
    else some ((digitsToNat ip : ℚ) + (digitsToNat fp : ℚ) / (10 : ℚ) ^ fp.length, r3)
  | _ => if ip.isEmpty then none else some ((digitsToNat ip : ℚ), r1)

/-- Decimal exponent of a Python float literal: optional sign, then digits
which must consume the whole remainder. -/
def parseExponent (cs : List Char) : Option ℤ :=
  let sgn : ℤ := match cs with
    | '-' :: _ => -1
    | _ => 1
  let cs1 : List Char := match cs with
    | '+' :: t => t
    | '-' :: t => t
    | t => t
  if cs1.isEmpty || !(cs1.all Char.isDigit) then none
  else some (sgn * (digitsToNat cs1 : ℤ))

/-- Python `float(s)` on a string, as a partial parse to an exact rational:
optional surrounding whitespace, optional sign, digits with an optional
fractional part, optional decimal exponent.  The special forms
`inf`/`infinity`/`nan` and digit-group underscores are not modelled (no claim
depends on them); every string this parser accepts is accepted by Python
`float` with the same value, and blank or clearly non-numeric strings are
rejected by both. -/
def pyFloatOfString (s : String) : Option ℚ :=
  let cs := stripChars s.data
  let sgn : ℚ := match cs with
    | '-' :: _ => -1
    | _ => 1
  let cs1 : List Char := match cs with
    | '+' :: t => t
    | '-' :: t => t
    | t => t
  match parseMantissa cs1 with
  | none => none
  | some (m, rest) =>
    match rest with
    | [] => some (sgn * m)
    | 'e' :: r => (parseExponent r).map fun e => sgn * m * (10 : ℚ) ^ e
    | 'E' :: r => (parseExponent r).map fun e => sgn * m * (10 : ℚ) ^ e
    | _ => none

/-- Python `int(s)` on a string: optional whitespace, optional sign, decimal
digits only; a fractional string such as "3.5" raises `ValueError` (`none`). -/
def pyIntOfString (s : String) : Option ℤ :=
  let cs := stripChars s.data
  let sgn : ℤ := match cs with
    | '-' :: _ => -1
    | _ => 1
  let cs1 : List Char := match cs with
    | '+' :: t => t
    | '-' :: t => t
    | t => t
  if cs1.isEmpty || !(cs1.all Char.isDigit) then none
  else some (sgn * (digitsToNat cs1 : ℤ))

/-- Python `int(f)` on a numeric value: truncation toward zero. -/
def pyTrunc (q : ℚ) : ℤ := if 0 ≤ q then ⌊q⌋ else ⌈q⌉

/-- Python `str(x)` on a non-null cell.  A text cell is the string itself; a
numeric cell is rendered with `toString`, a stand-in for Python `repr` (the
claims only ever apply `str` to text or NaN-guarded cells). -/
def pyStrOfCell : Cell → String
  | .na => "nan"
  | .num q => toString q
  | .text s => s

/-- Python `float(x)` on a cell: a numeric value passes through unchanged, a
string is parsed; `none` models a raised `ValueError`. -/
def pyFloatOfCell : Cell → Option ℚ
  | .na => none
  | .num q => some q
  | .text s => pyFloatOfString s

/-- Python `int(x)` on a cell: a numeric value truncates toward zero, a string
must be an integer literal; `none` models a raised `ValueError`. -/
def pyIntOfCell : Cell → Option ℤ
  | .na => none
  | .num q => some (pyTrunc q)
  | .text s => pyIntOfString s

/-- Split a character list at its first colon: `none` when no colon occurs
(Python `":" in s` false), otherwise the text before and after it (Python
`s.partition(":")`). -/
def splitFirstColon : List Char → Option (List Char × List Char)
  | [] => none
  | c :: rest =>
    if c = ':' then some ([], rest)
    else (splitFirstColon rest).map fun p => (c :: p.1, p.2)

/-- Collapse a blank string to null, Python's `s or None` after a strip. -/
def blankToNone (s : String) : Option String :=
  if s = "" then none else some s

/-- `parse.parse_discovery_seed`: split a discovery-seed string on the first
colon into `(seed_name, seed_smiles)`; null/blank input gives (null, null),
and a blank segment collapses to null. -/
def parse_discovery_seed (discovery_seed : Option String) :
    Option String × Option String :=
  match discovery_seed with
  | none => (none, none)
  | some s0 =>
    if pyStrip s0 = "" then (none, none)
    else
      let s := pyStrip s0
      match splitFirstColon s.data with
      | some (nm, rest) => (blankToNone (pyStrip ⟨nm⟩), blankToNone (pyStrip ⟨rest⟩))
      | none => (some s, none)

/-- Seed parsing exactly as the claim states it: for a string containing a
colon, the trimmed text before the first colon is the family name and the
trimmed text after it is the encoding, with no collapse of blank segments to
null. -/
def claimed_parse_seed (discovery_seed : Option String) :
    Option String × Option String :=
  match discovery_seed with
  | none => (none, none)
  | some s0 =>
    if pyStrip s0 = "" then (none, none)
    else
      let s := pyStrip s0
      match splitFirstColon s.data with
      | some (nm, rest) => (some (pyStrip ⟨nm⟩), some (pyStrip ⟨rest⟩))
      | none => (some s, none)

/-- Seed parsing as amended: as the claim states it, except that a segment
blank after trimming collapses to null rather than to the empty string. -/
def amended_parse_seed (discovery_seed : Option String) :
    Option String × Option String :=
  match discovery_seed with
  | none => (none, none)
  | some s0 =>
    if pyStrip s0 = "" then (none, none)
    else
      let s := pyStrip s0
      match splitFirstColon s.data with
      | some (nm, rest) =>
        ((if pyStrip ⟨nm⟩ = "" then none else some (pyStrip ⟨nm⟩)),
         (if pyStrip ⟨rest⟩ = "" then none else some (pyStrip ⟨rest⟩)))
      | none => (some s, none)

/-- `csv_ingest.normalize_discovery_method`: trim and lower-case, keep the
three known values, map the legacy value "similarity" to "sim2d", default
blank/absent to "substructure", pass anything else through. -/
def normalize_discovery_method (method : Option String) : String :=
  match method with
  | none => "substructure"
  | some s =>
    if pyStrip s = "" then "substructure"
    else
      let m := pyLower (pyStrip s)
      if m = "substructure" ∨ m = "sim2d" ∨ m = "sim3d" then m
      else if m = "similarity" then "sim2d"
      else m

/-- Discovery-method normalization exactly as the spec sentence states it:
blank/absent defaults, the legacy value maps to "sim2d", everything else is
the trimmed lower-cased input verbatim (the three known method names being
their own lower-case forms). -/
def spec_normalize_method (method : Option String) : String :=
  match method with
  | none => "substructure"
  | some s =>
    if pyStrip s = "" then "substructure"
    else
      let m := pyLower (pyStrip s)
      if m = "similarity" then "sim2d"
      else m

/-- One raw manifest CSV row: each named column as a cell.  A column missing
from the frame reads as `na`, matching `r.get(...)` on such a row. -/
structure RawRow where
  PubChem_CID : Cell := .na
  SMILES : Cell := .na
  InChIKey : Cell := .na
  molecular_formula : Cell := .na
  molecular_weight : Cell := .na
  exact_mass : Cell := .na
  XLogP3 : Cell := .na
  TPSA : Cell := .na
  HBA : Cell := .na
  HBD : Cell := .na
  rotatable_bonds : Cell := .na
  discovery_method : Cell := .na
  discovery_seed : Cell := .na
  name : Cell := .na
deriving DecidableEq

/-- One insert row for `discovered_molecule` as built by
`csv_ingest.build_molecule_rows`. -/
structure MolRow where
  dataset_id : String
  cid : ℤ
  smiles : Option String
  inchi_key : Option String
  molecular_formula : Option String
  molecular_weight : Option ℚ
  exact_mass : Option ℚ
  xlogp3 : Option ℚ
  tpsa : Option ℚ
  hba : Option ℤ
  hbd : Option ℤ
  rotatable_bonds : Option ℤ
  discovery_method : String
  discovery_seed : Option String
  seed_name : Option String
  seed_smiles : Option String
  name : Option String
  ingest_run_id : String
deriving DecidableEq

/-- A string column cell: `None if pd.isna(x) else str(x).strip() or None`. -/
def strCell : Cell → Option String
  | .na => none
  | c =>
    let s := pyStrip (pyStrOfCell c)
    if s = "" then none else some s

/-- A float column cell, `None if pd.isna(x) else float(x)`, as an `Except`:
`.error` models the uncaught `ValueError` of `float` on a bad string. -/
def optFloatField (c : Cell) : Except String (Option ℚ) :=
  match c with
  | .na => .ok none
  | c =>
    match pyFloatOfCell c with
    | some q => .ok (some q)
    | none => .error "ValueError"

/-- An int column cell, `None if pd.isna(x) else int(x)`, as an `Except`. -/
def optIntField (c : Cell) : Except String (Option ℤ) :=
  match c with
  | .na => .ok none
  | c =>
    match pyIntOfCell c with
    | some n => .ok (some n)
    | none => .error "ValueError"

/-- The loop body of `csv_ingest.build_molecule_rows` for one row:
`.ok none` means the row is skipped (missing or unparseable identifier),
`.ok (some r)` is a built row, `.error` an uncaught exception raised while the
row dict was being built. -/
def build_molecule_row (dataset_id run_id : String) (r : RawRow) :
    Except String (Option MolRow) :=
  match pyFloatOfCell r.PubChem_CID with
  | none => .ok none
  | some q =>
      let seedRaw : Option String :=
        match r.discovery_seed with
        | .na => none
        | c' => some (pyStrOfCell c')
      let seeds := parse_discovery_seed seedRaw
      let method := normalize_discovery_method
        (match r.discovery_method with
         | .na => none
         | c' => some (pyStrOfCell c'))
      do
        let mw ← optFloatField r.molecular_weight
        let em ← optFloatField r.exact_mass
        let xl ← optFloatField r.XLogP3
        let tp ← optFloatField r.TPSA
        let ha ← optIntField r.HBA
        let hd ← optIntField r.HBD
        let rb ← optIntField r.rotatable_bonds
        .ok (some
          { dataset_id := dataset_id
            cid := pyTrunc q
            smiles := strCell r.SMILES
            inchi_key := strCell r.InChIKey
            molecular_formula := strCell r.molecular_formula
            molecular_weight := mw
            exact_mass := em
            xlogp3 := xl
            tpsa := tp
            hba := ha
            hbd := hd
            rotatable_bonds := rb
            discovery_method := method
            discovery_seed :=
              (match r.discovery_seed with
               | .na => none
               | c' => strCell c')
            seed_name := seeds.1
            seed_smiles := seeds.2
            name := strCell r.name
            ingest_run_id := run_id })

/-- `csv_ingest.build_molecule_rows`: run the per-row builder over every frame
row; an uncaught coercion error aborts the whole build. -/
def build_molecule_rows (df : List RawRow) (dataset_id run_id : String) :
    Except String (List MolRow) :=
  match df with
  | [] => .ok []
  | r :: rest => do
    let hd? ← build_molecule_row dataset_id run_id r
    let tl ← build_molecule_rows rest dataset_id run_id
    match hd? with
    | none => .ok tl
    | some m => .ok (m :: tl)

/-- Natural key of the two geometry tables: (dataset_id, cid). -/
abbrev GeoKey := String × ℤ

/-- Hot scalar row for `molecule_geometry` (the eight hot SDF tags). -/
structure HotRow where
  conformer_id : Option String := none
  mmff94_energy : Option ℚ := none
  conformer_rmsd : Option ℚ := none
  effective_rotor_count : Option ℤ := none
  shape_volume : Option ℚ := none
  shape_selfoverlap : Option ℚ := none
  heavy_atom_count : Option ℤ := none
  component_count : Option ℤ := none
deriving DecidableEq

/-- The four cold SDF tag payloads (byte blobs modelled as strings: the code
stores the UTF-8 encoding of the tag text). -/
structure ColdBlobs where
  shape_fingerprint : Option String := none
  pharmacophore_features : Option String := none
  mmff94_partial_charges : Option String := none
  coordinate_type : Option String := none
deriving DecidableEq

/-- Row for `molecule_geometry_cold`: the molblock text plus the blobs. -/
structure ColdRow where
  molblock : String
  blobs : ColdBlobs
deriving DecidableEq

/-- One database write issued by geometry ingestion. -/
inductive GeoWrite where
  | hotW (k : GeoKey) (v : HotRow)
  | coldW (k : GeoKey) (v : ColdRow)
deriving DecidableEq

/-- Contents of the two geometry tables, by natural key. -/
structure GeoState where
  hot : GeoKey → Option HotRow
  cold : GeoKey → Option ColdRow

/-- Both geometry tables empty. -/
def GeoState.empty : GeoState := ⟨fun _ => none, fun _ => none⟩

/-- Apply one upsert statement to the store. -/
def applyWrite (s : GeoState) : GeoWrite → GeoState
  | .hotW k v => { s with hot := fun k' => if k' = k then some v else s.hot k' }
  | .coldW k v => { s with cold := fun k' => if k' = k then some v else s.cold k' }

/-- Execute a list of upsert statements in order.  An ingestion run
interrupted by a write failure corresponds to executing a prefix of the
run's statement list. -/
def execWrites (s : GeoState) (ws : List GeoWrite) : GeoState :=
  ws.foldl applyWrite s

/-- `db.upsert_geometry`: an upsert into `molecule_geometry` followed by an
upsert into `molecule_geometry_cold`, as two separate statements in that
order — the source wraps them in no transaction. -/
def upsert_geometry (dataset_id : String) (cid : ℤ) (hot : HotRow)
    (molblock : String) (cold_blobs : ColdBlobs) : List GeoWrite :=
  [.hotW (dataset_id, cid) hot, .coldW (dataset_id, cid) ⟨molblock, cold_blobs⟩]

/-- One parsed SDF record as yielded by `sdf_ingest.iter_sdf_records`. -/
structure SdfRecord where
  cid : ℤ
  molblock : String
  hot : HotRow
  cold : ColdBlobs
deriving DecidableEq

/-- `cli.ingest_sdf` after the initial valid-CID fetch: the upsert statements
it issues in order, and the final (written, skipped) counters.  A record whose
cid is not among `valid_cids` is skipped and counted; a valid record issues
the `upsert_geometry` statements and is counted as written. -/
def ingest_sdf (dataset_id : String) (valid_cids : List ℤ)
    (records : List SdfRecord) : List GeoWrite × ℕ × ℕ :=
  match records with
  | [] => ([], 0, 0)
  | r :: rest =>
    let out := ingest_sdf dataset_id valid_cids rest
    if r.cid ∈ valid_cids then
      (upsert_geometry dataset_id r.cid r.hot r.molblock r.cold ++ out.1,
       out.2.1 + 1, out.2.2)
    else (out.1, out.2.1, out.2.2 + 1)

/-- The GeometryHot/GeometryCold pairing invariant of the data model: a hot
row exists exactly when its cold row does. -/
def pairedState (s : GeoState) : Prop :=
  ∀ k : GeoKey, (s.hot k).isSome ↔ (s.cold k).isSome

/-- A row of `discovered_molecule` as the query path sees it. -/
structure DBMolecule where
  dataset_id : String
  cid : ℤ
  smiles : Option String := none
  inchi_key : Option String := none
  molecular_formula : Option String := none
  molecular_weight : Option ℚ := none
  exact_mass : Option ℚ := none
  xlogp3 : Option ℚ := none
  tpsa : Option ℚ := none
  hba : Option ℤ := none
  hbd : Option ℤ := none
  rotatable_bonds : Option ℤ := none
  discovery_method : Option String := none
  discovery_seed : Option String := none
  seed_name : Option String := none
  seed_smiles : Option String := none
  name : Option String := none
deriving DecidableEq

/-- A row of `molecule_geometry` as the query path sees it. -/
structure DBGeometry where
  dataset_id : String
  cid : ℤ
  conformer_id : Option String := none
  mmff94_energy : Option ℚ := none
  conformer_rmsd : Option ℚ := none
  effective_rotor_count : Option ℤ := none
  shape_volume : Option ℚ := none
  shape_selfoverlap : Option ℚ := none
  heavy_atom_count : Option ℤ := none
  component_count : Option ℤ := none
deriving DecidableEq

/-- The two queried tables. -/
structure QueryDB where
  molecules : List DBMolecule
  geometry : List DBGeometry

/-- One sort key of the request body. -/
structure SortItem where
  field : String
  dir : String := "asc"
deriving DecidableEq

/-- Page of the request body. -/
structure PageSpec where
  limit : ℕ := 100
  offset : ℕ := 0
deriving DecidableEq

/-- `main.MoleculesQueryBody`.  The `ranges` dict is an association list in
insertion order. -/
structure MoleculesQueryBody where
  seed_name : Option String := none
  methods : Option (List String) := none
  ranges : Option (List (String × List ℚ)) := none
  sort : Option (List SortItem) := none
  page : Option PageSpec := none
deriving DecidableEq

/-- The six range-filter fields of the manifest table, in source order. -/
def manifestRangeFields : List String :=
  ["molecular_weight", "TPSA", "XLogP3", "HBA", "HBD", "rotatable_bonds"]

/-- The two range-filter fields of the geometry table. -/
def geometryRangeFields : List String := ["mmff94_energy", "shape_volume"]

/-- The fixed allow-list of range-filter fields of `_build_where`. -/
def rangeAllowList : List String := manifestRangeFields ++ geometryRangeFields

/-- `m.<field>` for the six manifest range columns (integer columns compare as
numerics). -/
def molFieldVal (m : DBMolecule) : String → Option ℚ
  | "molecular_weight" => m.molecular_weight
  | "TPSA" => m.tpsa
  | "XLogP3" => m.xlogp3
  | "HBA" => m.hba.map fun n => (n : ℚ)
  | "HBD" => m.hbd.map fun n => (n : ℚ)
  | "rotatable_bonds" => m.rotatable_bonds.map fun n => (n : ℚ)
  | _ => none

/-- `g.<field>` for the two geometry range columns. -/
def geomFieldVal (g : DBGeometry) : String → Option ℚ
  | "mmff94_energy" => g.mmff94_energy
  | "shape_volume" => g.shape_volume
  | _ => none

/-- One conjunct of the WHERE clause `_build_where` emits. -/
inductive Cond where
  | datasetEq (d : String)
  | seedEq (s : String)
  | methodAny (ms : List String)
  | manifestRange (f : String) (lo hi : ℚ)
  | geomRange (f : String) (lo hi : ℚ)
deriving DecidableEq

/-- What one `ranges` entry contributes to the WHERE clause: an entry with
fewer than two bounds, or whose field is off the allow-list, contributes
nothing; an allow-listed entry contributes one inclusive bounds condition on
the manifest or the geometry column. -/
def condsOfEntry : String × List ℚ → List Cond
  | (f, lo :: hi :: _) =>
    if f ∈ rangeAllowList then
      (if f ∈ geometryRangeFields then [Cond.geomRange f lo hi]
       else [Cond.manifestRange f lo hi])
    else []
  | _ => []

/-- The range-filter conditions of `_build_where`, in entry order. -/
def rangeCondsOf (rs : List (String × List ℚ)) : List Cond :=
  rs.flatMap condsOfEntry

/-- `main._build_where`: the WHERE conjunction for one request (the positional
parameter bindings are carried inside the condition values). -/
def build_where (dataset_id : String) (body : MoleculesQueryBody) : List Cond :=
  [Cond.datasetEq dataset_id]
    ++ (match body.seed_name with
        | some s => if s ≠ "" then [Cond.seedEq s] else []
        | none => [])
    ++ (match body.methods with
        | some ms => if ms ≠ [] then [Cond.methodAny ms] else []
        | none => [])
    ++ (match body.ranges with
        | some rs => if rs ≠ [] then rangeCondsOf rs else []
        | none => [])

/-- SQL truth of one condition on a joined row.  `g? = none` is the unmatched
side of the LEFT JOIN: every comparison against its NULL columns is not-true,
and a NULL manifest column never satisfies a comparison either. -/
def evalCond (m : DBMolecule) (g? : Option DBGeometry) : Cond → Bool
  | .datasetEq d => m.dataset_id == d
  | .seedEq s => m.seed_name == some s
  | .methodAny ms =>
    match m.discovery_method with
    | some dm => ms.contains dm
    | none => false
  | .manifestRange f lo hi =>
    match molFieldVal m f with
    | some v => decide (lo ≤ v) && decide (v ≤ hi)
    | none => false
  | .geomRange f lo hi =>
    match g? with
    | some g =>
      (g.cid == m.cid) &&
        (match geomFieldVal g f with
         | some v => decide (lo ≤ v) && decide (v ≤ hi)
         | none => false)
    | none => false

/-- Truth of the whole built WHERE clause on a joined row. -/
def evalWhere (ds : String) (body : MoleculesQueryBody) (m : DBMolecule)
    (g? : Option DBGeometry) : Bool :=
  (build_where ds body).all (evalCond m g?)

/-- Python truthiness of an optional list. -/
def truthyList {α : Type} : Option (List α) → Bool
  | none => false
  | some l => !l.isEmpty

/-- The `use_geom` flag of `main.query_molecules`: some ranges key, or some
sort field, is a geometry-only field. -/
def use_geom (body : MoleculesQueryBody) : Bool :=
  (truthyList body.ranges &&
      (body.ranges.getD []).any fun fp => decide (fp.1 ∈ geometryRangeFields))
    || (truthyList body.sort &&
      (body.sort.getD []).any fun s => decide (s.field ∈ geometryRangeFields))

/-- LEFT JOIN of the manifest table with `molecule_geometry` on
(dataset_id, cid). -/
def leftJoinRows (db : QueryDB) : List (DBMolecule × Option DBGeometry) :=
  db.molecules.flatMap fun m =>
    match db.geometry.filter fun g =>
        g.dataset_id == m.dataset_id && g.cid == m.cid with
    | [] => [(m, none)]
    | gs => gs.map fun g => (m, some g)

/-- The FROM clause of `query_molecules`: the bare manifest table, or the
LEFT JOIN when `use_geom` is set. -/
def fromRows (db : QueryDB) (body : MoleculesQueryBody) :
    List (DBMolecule × Option DBGeometry) :=
  if use_geom body then leftJoinRows db
  else db.molecules.map fun m => (m, none)

/-- The rows matching the WHERE clause, before ORDER BY and paging. -/
def matchedRows (db : QueryDB) (ds : String) (body : MoleculesQueryBody) :
    List (DBMolecule × Option DBGeometry) :=
  (fromRows db body).filter fun mg => evalWhere ds body mg.1 mg.2

/-- A Postgres scalar as an ORDER BY key: NULL, a number or a string. -/
inductive SQLVal where
  | vnull
  | vnum (q : ℚ)
  | vstr (s : String)
deriving DecidableEq

/-- Lift an optional numeric column to a sort key. -/
def optNumVal : Option ℚ → SQLVal
  | some q => .vnum q
  | none => .vnull

/-- Lift an optional text column to a sort key. -/
def optStrVal : Option String → SQLVal
  | some s => .vstr s
  | none => .vnull

/-- ORDER BY key value of a sort item's field on a joined row: `g.<field>` for
the two geometry-only fields, otherwise `m.<field>` (a field naming no queried
column sorts as NULL; on the real database it would be a SQL error, which no
claim exercises). -/
def sortFieldVal (mg : DBMolecule × Option DBGeometry) (f : String) : SQLVal :=
  if f ∈ geometryRangeFields then
    match mg.2 with
    | some g => optNumVal (geomFieldVal g f)
    | none => .vnull
  else
    match f with
    | "cid" => .vnum (mg.1.cid : ℚ)
    | "exact_mass" => optNumVal mg.1.exact_mass
    | "smiles" => optStrVal mg.1.smiles
    | "inchi_key" => optStrVal mg.1.inchi_key
    | "molecular_formula" => optStrVal mg.1.molecular_formula
    | "discovery_method" => optStrVal mg.1.discovery_method
    | "discovery_seed" => optStrVal mg.1.discovery_seed
    | "seed_name" => optStrVal mg.1.seed_name
    | "name" => optStrVal mg.1.name
    | f' =>
      match molFieldVal mg.1 f' with
      | some v => .vnum v
      | none => .vnull

/-- Three-way comparison of rationals. -/
def cmpQ (a b : ℚ) : Ordering :=
  if a < b then .lt else if b < a then .gt else .eq

/-- Three-way comparison of strings. -/
def cmpStr (a b : String) : Ordering :=
  if a < b then .lt else if b < a then .gt else .eq

/-- Ascending comparison of sort keys with Postgres NULLS LAST (a descending
key reverses the arguments, which makes its NULLs sort first).  Keys of
different runtime types cannot arise for one column; the arbitrary value
chosen for that case is irrelevant. -/
def cmpVal : SQLVal → SQLVal → Ordering
  | .vnull, .vnull => .eq
  | .vnull, _ => .gt
  | _, .vnull => .lt
  | .vnum a, .vnum b => cmpQ a b
  | .vstr a, .vstr b => cmpStr a b
  | .vnum _, .vstr _ => .lt
  | .vstr _, .vnum _ => .gt

/-- The effective ORDER BY key list: the request's sort items, defaulting to
identifier ascending. -/
def sortKeyItems (body : MoleculesQueryBody) : List SortItem :=
  match body.sort with
  | some l => if l.isEmpty then [⟨"cid", "asc"⟩] else l
  | none => [⟨"cid", "asc"⟩]

/-- Lexicographic row comparison over the sort items. -/
def cmpRows (items : List SortItem) (r1 r2 : DBMolecule × Option DBGeometry) :
    Ordering :=
  match items with
  | [] => .eq
  | it :: rest =>
    let c :=
      if it.dir == "asc" then cmpVal (sortFieldVal r1 it.field) (sortFieldVal r2 it.field)
      else cmpVal (sortFieldVal r2 it.field) (sortFieldVal r1 it.field)
    match c with
    | .eq => cmpRows rest r1 r2
    | c' => c'

/-- The matching rows in ORDER BY order. -/
def orderedRows (db : QueryDB) (ds : String) (body : MoleculesQueryBody) :
    List (DBMolecule × Option DBGeometry) :=
  List.insertionSort (fun a b => cmpRows (sortKeyItems body) a b ≠ .gt)
    (matchedRows db ds body)

/-- The page of rows returned by `query_molecules` for LIMIT/OFFSET values. -/
def query_molecules_page (db : QueryDB) (ds : String)
    (body : MoleculesQueryBody) (limit offset : ℕ) :
    List (DBMolecule × Option DBGeometry) :=
  ((orderedRows db ds body).drop offset).take limit

/-- The total count returned by `query_molecules`: `COUNT(*)` over the same
FROM clause and the same WHERE clause, without LIMIT/OFFSET. -/
def query_molecules_total (db : QueryDB) (ds : String)
    (body : MoleculesQueryBody) : ℕ :=
  (matchedRows db ds body).length

/-- The eight aggregate fields of `aggregates_molecules`, in source order. -/
def aggFieldNames : List String :=
  ["molecular_weight", "TPSA", "XLogP3", "HBA", "HBD", "rotatable_bonds",
   "mmff94_energy", "shape_volume"]

/-- The aggregated column value of one of the eight fields on a joined row. -/
def aggColVal (mg : DBMolecule × Option DBGeometry) : String → Option ℚ
  | "molecular_weight" => mg.1.molecular_weight
  | "TPSA" => mg.1.tpsa
  | "XLogP3" => mg.1.xlogp3
  | "HBA" => mg.1.hba.map fun n => (n : ℚ)
  | "HBD" => mg.1.hbd.map fun n => (n : ℚ)
  | "rotatable_bonds" => mg.1.rotatable_bonds.map fun n => (n : ℚ)
  | "mmff94_energy" => mg.2.bind fun g => g.mmff94_energy
  | "shape_volume" => mg.2.bind fun g => g.shape_volume
  | _ => none

/-- Rows scanned by `aggregates_molecules`: always the LEFT JOIN, filtered by
the same WHERE clause as the query path. -/
def aggMatchedRows (db : QueryDB) (ds : String) (body : MoleculesQueryBody) :
    List (DBMolecule × Option DBGeometry) :=
  (leftJoinRows db).filter fun mg => evalWhere ds body mg.1 mg.2

/-- The non-null values of one aggregate field over the matching rows. -/
def aggVals (db : QueryDB) (ds : String) (body : MoleculesQueryBody)
    (f : String) : List ℚ :=
  (aggMatchedRows db ds body).filterMap fun mg => aggColVal mg f

/-- One per-field aggregate summary. -/
structure AggSummary where
  count : ℕ
  min : ℚ
  max : ℚ
deriving DecidableEq

/-- SQL `MIN` over a value list (`none` on no rows). -/
def listMin : List ℚ → Option ℚ
  | [] => none
  | q :: rest =>
    match listMin rest with
    | none => some q
    | some m => some (min q m)

/-- SQL `MAX` over a value list (`none` on no rows). -/
def listMax : List ℚ → Option ℚ
  | [] => none
  | q :: rest =>
    match listMax rest with
    | none => some q
    | some m => some (max q m)

/-- The (count, min, max) summary of one field, or `none` when the field has
no non-null matching value (the branch `aggregates_molecules` omits). -/
def aggSummaryOf (vals : List ℚ) : Option AggSummary :=
  match listMin vals, listMax vals with
  | some lo, some hi => some ⟨vals.length, lo, hi⟩
  | _, _ => none

/-- `main.aggregates_molecules`: for each of the eight fields in order, an
independent (count, min, max) over the matching rows with a non-null value for
that field; a field with no such row is omitted. -/
def aggregates_molecules (db : QueryDB) (ds : String)
    (body : MoleculesQueryBody) : List (String × AggSummary) :=
  aggFieldNames.filterMap fun f =>
    (aggSummaryOf (aggVals db ds body f)).map fun a => (f, a)

/-- The joined field value a valid range filter constrains, as the WHERE
clause reads it: for a geometry-only field the geometry row's column (NULL
without a matching geometry row), otherwise the manifest column. -/
def whereFieldVal (m : DBMolecule) (g? : Option DBGeometry) (f : String) :
    Option ℚ :=
  if f ∈ geometryRangeFields then
    match g? with
    | some g => if g.cid = m.cid then geomFieldVal g f else none
    | none => none
  else molFieldVal m f

/-- A row satisfies one inclusive range filter: the constrained column is
non-null and lies between the bounds, both ends included. -/
def rangeSat (m : DBMolecule) (g? : Option DBGeometry) (f : String)
    (lo hi : ℚ) : Prop :=
  ∃ v, whereFieldVal m g? f = some v ∧ lo ≤ v ∧ v ≤ hi

/-- The range entries `_build_where` does not ignore: at least two bounds and
an allow-listed field name. -/
def validRangeEntries (rs : List (String × List ℚ)) : List (String × List ℚ) :=
  rs.filter fun fp => decide (2 ≤ fp.2.length) && decide (fp.1 ∈ rangeAllowList)

/-! ### Claim C5: discovery-method normalization -/

/-- C5: for every input, discovery-method normalization trims and lower-cases,
maps null/blank to "substructure" and the legacy value "similarity" (in any
letter case) to "sim2d", and passes every other trimmed lower-cased value —
the three known method names included — through verbatim. -/
theorem c5_normalize_discovery_method_matches_spec (method : Option String) :
    normalize_discovery_method method = spec_normalize_method method := by
  cases method with
  | none => rfl
  | some s =>
    by_cases hb : pyStrip s = ""
    · simp [normalize_discovery_method, spec_normalize_method, hb]
    · by_cases hsim : pyLower (pyStrip s) = "similarity"
      · simp [normalize_discovery_method, spec_normalize_method, hb, hsim]
      · simp [normalize_discovery_method, spec_normalize_method, hb, hsim,
          ite_self]

/-! ### Claim C4: discovery-seed parsing -/

/-- C4 as stated fails on the code: for an input whose first colon is at the
start, such as ":abc", the claim's rule makes the family name the trimmed
text before the colon — the empty string — while `parse_discovery_seed`
collapses the blank segment to null. -/
theorem c4_counterexample_blank_family :
    parse_discovery_seed (some ":abc") ≠ claimed_parse_seed (some ":abc") := by
  decide

/-- C4 amended: seed parsing splits on the first colon as claimed, except
that a segment blank after trimming becomes null, not the empty string; the
claim's concrete examples hold as stated. -/
theorem c4_parse_discovery_seed_amended :
    (∀ s? : Option String, parse_discovery_seed s? = amended_parse_seed s?) ∧
      parse_discovery_seed (some "aspirin:CC(=O)OC1=CC=CC=C1C(=O)O") =
        (some "aspirin", some "CC(=O)OC1=CC=CC=C1C(=O)O") ∧
      parse_discovery_seed (some "aspirin") = (some "aspirin", none) ∧
      parse_discovery_seed (some "") = (none, none) ∧
      parse_discovery_seed none = (none, none) := by
  refine ⟨fun s? => ?_, by decide, by decide, by decide, rfl⟩
  cases s? <;> rfl

/-! ### Claim C1: manifest numeric-field coercion -/

/-- A concrete manifest row with a parseable identifier and an unparseable
`molecular_weight` cell. -/
def c1BadRow : RawRow :=
  { PubChem_CID := .num 7, molecular_weight := .text "not a number" }

/-- C1 as stated fails on the code: an unparseable non-blank numeric cell does
not become null — `float` raises and the raised error escapes
`build_molecule_rows`, aborting the build instead of producing the row. -/
theorem c1_counterexample_unparseable_raises :
    build_molecule_rows [c1BadRow] "ds" "run" = .error "ValueError" := rfl

/-- C1 amended: for every raw manifest row whose numeric cells are each blank
or parseable, normalization is total: a blank cell yields null for its field,
parseable values are coerced to float (int for the count fields), and the row
is produced with its other fields intact.  An unparseable non-blank numeric
cell, however, raises an error that aborts the build (see the
counterexample), rather than yielding null. -/
theorem c1_numeric_coercion_total_on_parseable (ds run : String) (r : RawRow)
    (q : ℚ) (mw em xl tp : Option ℚ) (ha hd rb : Option ℤ)
    (hcid : pyFloatOfCell r.PubChem_CID = some q)
    (hmw : optFloatField r.molecular_weight = .ok mw)
    (hem : optFloatField r.exact_mass = .ok em)
    (hxl : optFloatField r.XLogP3 = .ok xl)
    (htp : optFloatField r.TPSA = .ok tp)
    (hha : optIntField r.HBA = .ok ha)
    (hhd : optIntField r.HBD = .ok hd)
    (hrb : optIntField r.rotatable_bonds = .ok rb) :
    build_molecule_row ds run r = .ok (some
      { dataset_id := ds
        cid := pyTrunc q
        smiles := strCell r.SMILES
        inchi_key := strCell r.InChIKey
        molecular_formula := strCell r.molecular_formula
        molecular_weight := mw
        exact_mass := em
        xlogp3 := xl
        tpsa := tp
        hba := ha
        hbd := hd
        rotatable_bonds := rb
        discovery_method := normalize_discovery_method
          (match r.discovery_method with
           | .na => none
           | c' => some (pyStrOfCell c'))
        discovery_seed :=
          (match r.discovery_seed with
           | .na => none
           | c' => strCell c')
        seed_name := (parse_discovery_seed
          (match r.discovery_seed with
           | .na => none
           | c' => some (pyStrOfCell c'))).1
        seed_smiles := (parse_discovery_seed
          (match r.discovery_seed with
           | .na => none
           | c' => some (pyStrOfCell c'))).2
        name := strCell r.name
        ingest_run_id := run }) := by
  unfold build_molecule_row
  rw [hcid, hmw, hem, hxl, htp, hha, hhd, hrb]
  rfl

/-- A concrete row exercising every coercion shape: numeric strings, floats,
blanks, a legacy method and a colon seed. -/
def c1GoodRow : RawRow :=
  { PubChem_CID := .text "42"
    SMILES := .text " CCO "
    molecular_weight := .text "12.5"
    exact_mass := .num (311/2)
    TPSA := .text " 37.3 "
    HBA := .num 3
    rotatable_bonds := .text "4"
    discovery_method := .text "Similarity"
    discovery_seed := .text "aspirin:CC" }

unseal Rat.mul Rat.inv Rat.add in
/-- C1 witness: the amended theorem applied to `c1GoodRow`, every hypothesis
discharged by evaluation. -/
theorem c1_numeric_coercion_witness :
    build_molecule_row "d" "r" c1GoodRow = .ok (some
      { dataset_id := "d"
        cid := pyTrunc 42
        smiles := strCell c1GoodRow.SMILES
        inchi_key := strCell c1GoodRow.InChIKey
        molecular_formula := strCell c1GoodRow.molecular_formula
        molecular_weight := some (25/2)
        exact_mass := some (311/2)
        xlogp3 := none
        tpsa := some (373/10)
        hba := some 3
        hbd := none
        rotatable_bonds := some 4
        discovery_method := normalize_discovery_method
          (match c1GoodRow.discovery_method with
           | .na => none
           | c' => some (pyStrOfCell c'))
        discovery_seed :=
          (match c1GoodRow.discovery_seed with
           | .na => none
           | c' => strCell c')
        seed_name := (parse_discovery_seed
          (match c1GoodRow.discovery_seed with
           | .na => none
           | c' => some (pyStrOfCell c'))).1
        seed_smiles := (parse_discovery_seed
          (match c1GoodRow.discovery_seed with
           | .na => none
           | c' => some (pyStrOfCell c'))).2
        name := strCell c1GoodRow.name
        ingest_run_id := "r" }) :=
  c1_numeric_coercion_total_on_parseable "d" "r" c1GoodRow 42
    (some (25/2)) (some (311/2)) none (some (373/10)) (some 3) none (some 4)
    (by decide) (by decide) (by decide) (by decide) (by decide) (by decide)
    (by decide) (by decide)

/-! ### Claims C2 and C3: geometry ingestion -/

/-- Key written by one upsert statement. -/
def writeKey : GeoWrite → GeoKey
  | .hotW k _ => k
  | .coldW k _ => k

theorem execWrites_append (s : GeoState) (ws1 ws2 : List GeoWrite) :
    execWrites s (ws1 ++ ws2) = execWrites (execWrites s ws1) ws2 := by
  simp [execWrites, List.foldl_append]

theorem execWrites_hot_isSome (ws : List GeoWrite) :
    ∀ (s : GeoState) (k : GeoKey), (s.hot k).isSome →
      ((execWrites s ws).hot k).isSome := by
  induction ws with
  | nil => intro s k h; exact h
  | cons w rest ih =>
    intro s k h
    cases w with
    | hotW k' v =>
      apply ih
      simp only [applyWrite]
      by_cases hk : k = k' <;> simp [hk, h]
    | coldW k' v => exact ih _ _ h

theorem execWrites_cold_isSome (ws : List GeoWrite) :
    ∀ (s : GeoState) (k : GeoKey), (s.cold k).isSome →
      ((execWrites s ws).cold k).isSome := by
  induction ws with
  | nil => intro s k h; exact h
  | cons w rest ih =>
    intro s k h
    cases w with
    | hotW k' v => exact ih _ _ h
    | coldW k' v =>
      apply ih
      simp only [applyWrite]
      by_cases hk : k = k' <;> simp [hk, h]

theorem execWrites_frame (ws : List GeoWrite) :
    ∀ (s : GeoState) (k : GeoKey), (∀ w ∈ ws, writeKey w ≠ k) →
      (execWrites s ws).hot k = s.hot k ∧
      (execWrites s ws).cold k = s.cold k := by
  induction ws with
  | nil => intro s k _; exact ⟨rfl, rfl⟩
  | cons w rest ih =>
    intro s k h
    have hw : writeKey w ≠ k := h w (List.mem_cons_self w rest)
    have hrest : ∀ w' ∈ rest, writeKey w' ≠ k := fun w' hm =>
      h w' (List.mem_cons_of_mem w hm)
    cases w with
    | hotW k' v =>
      have h1 := ih (applyWrite s (.hotW k' v)) k hrest
      simp only [writeKey] at hw
      refine ⟨h1.1.trans ?_, h1.2.trans rfl⟩
      simp only [applyWrite]
      exact if_neg fun h' => hw h'.symm
    | coldW k' v =>
      have h1 := ih (applyWrite s (.coldW k' v)) k hrest
      simp only [writeKey] at hw
      refine ⟨h1.1.trans rfl, h1.2.trans ?_⟩
      simp only [applyWrite]
      exact if_neg fun h' => hw h'.symm

theorem ingest_sdf_write_keys (ds : String) (valid : List ℤ)
    (records : List SdfRecord) :
    ∀ w ∈ (ingest_sdf ds valid records).1,
      (writeKey w).1 = ds ∧ (writeKey w).2 ∈ valid := by
  induction records with
  | nil => intro w hw; cases hw
  | cons a rest ih =>
    intro w hw
    by_cases hm : a.cid ∈ valid
    · simp only [ingest_sdf, hm, if_pos] at hw
      rcases List.mem_append.mp hw with hup | hrest
      · rcases hup with _ | ⟨_, _ | ⟨_, h⟩⟩ <;>
          first
          | exact ⟨rfl, hm⟩
          | cases h
      · exact ih w hrest
    · simp only [ingest_sdf, hm, if_neg, not_false_iff] at hw
      exact ih w hw

theorem upsert_geometry_paired (ds : String) (cid : ℤ) (hot : HotRow)
    (mb : String) (cb : ColdBlobs) (s : GeoState) (h : pairedState s) :
    pairedState (execWrites s (upsert_geometry ds cid hot mb cb)) := by
  intro k
  simp only [upsert_geometry, execWrites, List.foldl, applyWrite]
  by_cases hk : k = (ds, cid) <;> simp [hk, h k]

/-- The upsert statements of one ingestion run split at each record. -/
theorem ingest_sdf_writes_cons (ds : String) (valid : List ℤ)
    (a : SdfRecord) (rest : List SdfRecord) :
    (ingest_sdf ds valid (a :: rest)).1 =
      (if a.cid ∈ valid then upsert_geometry ds a.cid a.hot a.molblock a.cold
       else []) ++ (ingest_sdf ds valid rest).1 := by
  by_cases hm : a.cid ∈ valid <;> simp [ingest_sdf, hm]

/-- An SDF record used by the concrete counterexample run. -/
def c2Record : SdfRecord := { cid := 7, molblock := "MB", hot := {}, cold := {} }

/-- C2 as stated fails on the code: the two geometry writes are separate
statements with no enclosing transaction, so the run for one valid record,
interrupted after its first write, leaves a GeometryHot row for key
("ds", 7) with no matching GeometryCold row. -/
theorem c2_counterexample_interrupted_run :
    ((execWrites GeoState.empty
        (((ingest_sdf "ds" [7] [c2Record]).1).take 1)).hot ("ds", 7)).isSome = true ∧
      (execWrites GeoState.empty
        (((ingest_sdf "ds" [7] [c2Record]).1).take 1)).cold ("ds", 7) = none := by
  constructor <;> rfl

/-- C2 amended: the GeometryHot and GeometryCold upserts for a record are
issued together, hot row first, but not inside one transaction; a completed
(uninterrupted) ingestion run starting from a store satisfying the pairing
invariant leaves the invariant intact, while an interruption between the two
writes of a pair can leave a GeometryHot row without its GeometryCold row
(see the counterexample). -/
theorem c2_geometry_pairing_after_complete_run (ds : String) (valid : List ℤ)
    (records : List SdfRecord) (s0 : GeoState) (h : pairedState s0) :
    pairedState (execWrites s0 (ingest_sdf ds valid records).1) := by
  induction records generalizing s0 with
  | nil => exact h
  | cons a rest ih =>
    rw [ingest_sdf_writes_cons, execWrites_append]
    by_cases hm : a.cid ∈ valid
    · simp only [hm, if_pos]
      exact ih _ (upsert_geometry_paired ds a.cid a.hot a.molblock a.cold s0 h)
    · simp only [hm, if_neg, not_false_iff]
      exact ih _ h

/-- C2 witness: the amended theorem applied to a complete one-record run from
the empty store. -/
theorem c2_geometry_pairing_witness :
    pairedState (execWrites GeoState.empty (ingest_sdf "ds" [7] [c2Record]).1) :=
  c2_geometry_pairing_after_complete_run "ds" [7] [c2Record] GeoState.empty
    (fun _ => Iff.rfl)

theorem ingest_sdf_count_written (ds : String) (valid : List ℤ)
    (records : List SdfRecord) :
    (ingest_sdf ds valid records).2.1 =
      (records.filter fun r => decide (r.cid ∈ valid)).length := by
  induction records with
  | nil => rfl
  | cons a rest ih =>
    by_cases hm : a.cid ∈ valid <;>
      simp [ingest_sdf, hm, ih, List.filter_cons]

theorem ingest_sdf_count_skipped (ds : String) (valid : List ℤ)
    (records : List SdfRecord) :
    (ingest_sdf ds valid records).2.2 =
      (records.filter fun r => decide (r.cid ∉ valid)).length := by
  induction records with
  | nil => rfl
  | cons a rest ih =>
    by_cases hm : a.cid ∈ valid <;>
      simp [ingest_sdf, hm, ih, List.filter_cons]

theorem ingest_sdf_written_isSome (ds : String) (valid : List ℤ)
    (records : List SdfRecord) :
    ∀ (s0 : GeoState) (r : SdfRecord), r ∈ records → r.cid ∈ valid →
      ((execWrites s0 (ingest_sdf ds valid records).1).hot (ds, r.cid)).isSome ∧
      ((execWrites s0 (ingest_sdf ds valid records).1).cold (ds, r.cid)).isSome := by
  induction records with
  | nil => intro s0 r hr; cases hr
  | cons a rest ih =>
    intro s0 r hr hv
    rw [ingest_sdf_writes_cons, execWrites_append]
    by_cases hm : a.cid ∈ valid
    · simp only [hm, if_pos]
      rcases List.mem_cons.mp hr with heq | hmem
      · subst heq
        constructor
        · apply execWrites_hot_isSome
          simp [upsert_geometry, execWrites, applyWrite]
        · apply execWrites_cold_isSome
          simp [upsert_geometry, execWrites, applyWrite]
      · exact ih _ r hmem hv
    · simp only [hm, if_neg, not_false_iff, List.nil_append]
      rcases List.mem_cons.mp hr with heq | hmem
      · subst heq; exact absurd hv hm
      · exact ih _ r hmem hv

/-- C3: every geometry record whose identifier is not among the dataset's
manifest identifiers at the start of ingestion is skipped and counted in the
skipped tally, and no GeometryHot or GeometryCold row is written for any key
outside the valid-identifier set; the batch continues to the end — written
plus skipped covers every record — and each record whose identifier is
present is upserted (both its rows exist afterwards) and counted as
written. -/
theorem c3_unknown_identifiers_skipped (ds : String) (valid : List ℤ)
    (records : List SdfRecord) :
    (ingest_sdf ds valid records).2.1 =
        (records.filter fun r => decide (r.cid ∈ valid)).length ∧
      (ingest_sdf ds valid records).2.2 =
        (records.filter fun r => decide (r.cid ∉ valid)).length ∧
      (ingest_sdf ds valid records).2.1 + (ingest_sdf ds valid records).2.2 =
        records.length ∧
      (∀ (s0 : GeoState) (k : GeoKey), k.2 ∉ valid →
        (execWrites s0 (ingest_sdf ds valid records).1).hot k = s0.hot k ∧
        (execWrites s0 (ingest_sdf ds valid records).1).cold k = s0.cold k) ∧
      (∀ (s0 : GeoState) (r : SdfRecord), r ∈ records → r.cid ∈ valid →
        ((execWrites s0 (ingest_sdf ds valid records).1).hot (ds, r.cid)).isSome ∧
        ((execWrites s0 (ingest_sdf ds valid records).1).cold (ds, r.cid)).isSome) := by
  refine ⟨ingest_sdf_count_written ds valid records,
    ingest_sdf_count_skipped ds valid records, ?_, ?_,
    ingest_sdf_written_isSome ds valid records⟩
  · rw [ingest_sdf_count_written ds valid records,
      ingest_sdf_count_skipped ds valid records]
    induction records with
    | nil => rfl
    | cons a rest ih =>
      simp only [decide_not] at ih ⊢
      by_cases hm : a.cid ∈ valid <;> simp [List.filter_cons, hm] <;> omega
  · intro s0 k hk
    apply execWrites_frame
    intro w hw
    intro hwk
    exact hk (hwk ▸ (ingest_sdf_write_keys ds valid records w hw).2)

/-! ### Claim C6: the geometry-join flag -/

/-- C6: the geometry-table join flag is true exactly when some range-filter
entry or some sort key references one of the two geometry-only fields; a
request with only manifest-field ranges and no geometry sort leaves it false,
and one geometry-field reference in either place forces it true. -/
theorem c6_use_geom_iff_geometry_reference (body : MoleculesQueryBody) :
    use_geom body = true ↔
      ((∃ fp ∈ body.ranges.getD [], fp.1 ∈ geometryRangeFields) ∨
        (∃ s ∈ body.sort.getD [], s.field ∈ geometryRangeFields)) := by
  cases hr : body.ranges with
  | none =>
    cases hs : body.sort with
    | none => simp [use_geom, truthyList, hr, hs]
    | some l =>
      cases l with
      | nil => simp [use_geom, truthyList, hr, hs]
      | cons a t => simp [use_geom, truthyList, hr, hs, List.any_eq_true]
  | some rl =>
    cases hs : body.sort with
    | none =>
      cases rl with
      | nil => simp [use_geom, truthyList, hr, hs]
      | cons a t => simp [use_geom, truthyList, hr, hs, List.any_eq_true]
    | some l =>
      cases rl with
      | nil =>
        cases l with
        | nil => simp [use_geom, truthyList, hr, hs]
        | cons b u => simp [use_geom, truthyList, hr, hs, List.any_eq_true]
      | cons a t =>
        cases l with
        | nil => simp [use_geom, truthyList, hr, hs, List.any_eq_true]
        | cons b u => simp [use_geom, truthyList, hr, hs, List.any_eq_true]

/-! ### Claim C8: total count versus paging -/

theorem pagination_flatMap {α : Type} (ps : ℕ) :
    ∀ (n : ℕ) (l : List α), l.length ≤ n * ps →
      ((List.range n).flatMap fun i => (l.drop (i * ps)).take ps) = l := by
  intro n
  induction n with
  | zero =>
    intro l h
    simp only [Nat.zero_mul, Nat.le_zero] at h
    rw [List.eq_nil_of_length_eq_zero h]
    rfl
  | succ n ih =>
    intro l h
    rw [List.range_succ_eq_map, List.flatMap_cons, List.flatMap_map]
    have hfun : ((List.range n).flatMap fun a =>
          List.take ps (List.drop (a.succ * ps) l)) =
        (List.range n).flatMap fun i =>
          List.take ps (List.drop (i * ps) (List.drop ps l)) :=
      congrArg _ (funext fun i => by
        rw [List.drop_drop, Nat.succ_mul, Nat.add_comm (i * ps) ps])
    have hlen : (l.drop ps).length ≤ n * ps := by
      rw [List.length_drop]
      have h2 : (n + 1) * ps = n * ps + ps := by ring
      omega
    rw [hfun, ih _ hlen]
    simp only [Nat.zero_mul, List.drop_zero]
    exact List.take_append_drop ps l

theorem le_numPages_mul (len ps : ℕ) (hps : 0 < ps) :
    len ≤ ((len + ps - 1) / ps) * ps := by
  have hd := Nat.div_add_mod (len + ps - 1) ps
  have hm : (len + ps - 1) % ps < ps := Nat.mod_lt _ hps
  have hc : ps * ((len + ps - 1) / ps) = ((len + ps - 1) / ps) * ps :=
    Nat.mul_comm _ _
  omega

/-- C8: the total returned by the query executor is computed over the same
predicate as the page (both are derived from `matchedRows` of the identical
WHERE clause, with no LIMIT/OFFSET on the count), so paging through all
offsets with a fixed positive page size exactly reassembles the full ordered
result: the pages concatenate to the whole ordered row list, and the total
equals the sum of the page sizes — no row is double-counted or dropped. -/
theorem c8_total_equals_sum_of_pages (db : QueryDB) (ds : String)
    (body : MoleculesQueryBody) (ps : ℕ) (hps : 0 < ps) :
    ((List.range ((query_molecules_total db ds body + ps - 1) / ps)).flatMap
        fun i => query_molecules_page db ds body ps (i * ps)) =
      orderedRows db ds body ∧
    query_molecules_total db ds body =
      ((List.range ((query_molecules_total db ds body + ps - 1) / ps)).map
        fun i => (query_molecules_page db ds body ps (i * ps)).length).sum := by
  have hlen : (orderedRows db ds body).length = query_molecules_total db ds body := by
    unfold orderedRows query_molecules_total
    exact List.length_insertionSort _ _
  have hpages : ((List.range ((query_molecules_total db ds body + ps - 1) / ps)).flatMap
      fun i => query_molecules_page db ds body ps (i * ps)) = orderedRows db ds body := by
    apply pagination_flatMap
    rw [hlen]
    exact le_numPages_mul _ ps hps
  refine ⟨hpages, ?_⟩
  calc query_molecules_total db ds body
      = (orderedRows db ds body).length := hlen.symm
    _ = ((List.range ((query_molecules_total db ds body + ps - 1) / ps)).flatMap
          fun i => query_molecules_page db ds body ps (i * ps)).length := by
        rw [hpages]
    _ = ((List.range ((query_molecules_total db ds body + ps - 1) / ps)).map
          fun i => (query_molecules_page db ds body ps (i * ps)).length).sum := by
        rw [List.length_flatMap]
        exact congrArg List.sum
          (congrArg (fun g => List.map g (List.range _)) (funext fun i => rfl))

/-- Three molecules of one dataset, for the C8 witness. -/
def c8DB : QueryDB :=
  { molecules :=
      [{ dataset_id := "d", cid := 1 }, { dataset_id := "d", cid := 2 },
       { dataset_id := "d", cid := 3 }]
    geometry := [] }

/-- C8 witness: the theorem applied to a three-row dataset with page size 2. -/
theorem c8_total_equals_sum_of_pages_witness :
    ((List.range ((query_molecules_total c8DB "d" {} + 2 - 1) / 2)).flatMap
        fun i => query_molecules_page c8DB "d" {} 2 (i * 2)) =
      orderedRows c8DB "d" {} ∧
    query_molecules_total c8DB "d" {} =
      ((List.range ((query_molecules_total c8DB "d" {} + 2 - 1) / 2)).map
        fun i => (query_molecules_page c8DB "d" {} 2 (i * 2)).length).sum :=
  c8_total_equals_sum_of_pages c8DB "d" {} 2 (by decide)

/-! ### Claim C7: range-filter semantics -/

theorem rangeCondsOf_cons (fp : String × List ℚ) (rest : List (String × List ℚ)) :
    rangeCondsOf (fp :: rest) = condsOfEntry fp ++ rangeCondsOf rest := by
  simp [rangeCondsOf, List.flatMap_cons]

theorem rangeCondsOf_validRangeEntries (rs : List (String × List ℚ)) :
    rangeCondsOf (validRangeEntries rs) = rangeCondsOf rs := by
  induction rs with
  | nil => rfl
  | cons fp rest ih =>
    simp only [validRangeEntries] at ih ⊢
    obtain ⟨f, pair⟩ := fp
    rcases pair with _ | ⟨lo, rest2⟩
    · simpa [List.filter_cons, rangeCondsOf_cons, condsOfEntry] using ih
    rcases rest2 with _ | ⟨hi, t⟩
    · simpa [List.filter_cons, rangeCondsOf_cons, condsOfEntry] using ih
    have hlen : (2 : ℕ) ≤ (lo :: hi :: t).length := by
      simp [List.length_cons]
    by_cases hf : f ∈ rangeAllowList <;>
      simp [List.filter_cons, rangeCondsOf_cons, condsOfEntry, hlen, hf, ih]

theorem build_where_ignores_invalid (ds : String) (body : MoleculesQueryBody) :
    build_where ds body =
      build_where ds
        { body with ranges := some (validRangeEntries (body.ranges.getD [])) } := by
  unfold build_where
  congr 1
  cases hr : body.ranges with
  | none => simp [validRangeEntries, rangeCondsOf]
  | some rs =>
    by_cases he : rs = []
    · subst he; simp [validRangeEntries, rangeCondsOf]
    · simp only [Option.getD_some]
      by_cases hv : validRangeEntries rs = []
      · rw [if_pos he, if_neg fun h => h hv,
          ← rangeCondsOf_validRangeEntries rs, hv]
        rfl
      · rw [if_pos he, if_pos hv, rangeCondsOf_validRangeEntries]

theorem evalWhere_split (ds : String) (body : MoleculesQueryBody)
    (m : DBMolecule) (g? : Option DBGeometry) :
    evalWhere ds body m g? =
      (evalWhere ds { body with ranges := none } m g? &&
        (rangeCondsOf (body.ranges.getD [])).all (evalCond m g?)) := by
  unfold evalWhere build_where
  cases hr : body.ranges with
  | none => simp [rangeCondsOf]
  | some rs =>
    by_cases he : rs = []
    · subst he; simp [rangeCondsOf]
    · simp [he, List.all_append, Bool.and_assoc]

theorem evalCond_range_iff (m : DBMolecule) (g? : Option DBGeometry)
    (f : String) (lo hi : ℚ) :
    evalCond m g?
        (if f ∈ geometryRangeFields then Cond.geomRange f lo hi
         else Cond.manifestRange f lo hi) = true ↔
      rangeSat m g? f lo hi := by
  by_cases hg : f ∈ geometryRangeFields
  · rw [if_pos hg]
    cases g? with
    | none => simp [evalCond, rangeSat, whereFieldVal, hg]
    | some g =>
      by_cases hc : g.cid = m.cid
      · cases hv : geomFieldVal g f with
        | none => simp [evalCond, rangeSat, whereFieldVal, hg, hc, hv]
        | some v => simp [evalCond, rangeSat, whereFieldVal, hg, hc, hv]
      · simp [evalCond, rangeSat, whereFieldVal, hg, hc]
  · rw [if_neg hg]
    cases hv : molFieldVal m f with
    | none => simp [evalCond, rangeSat, whereFieldVal, hg, hv]
    | some v => simp [evalCond, rangeSat, whereFieldVal, hg, hv]

theorem all_rangeConds_iff (m : DBMolecule) (g? : Option DBGeometry)
    (rs : List (String × List ℚ)) :
    (rangeCondsOf rs).all (evalCond m g?) = true ↔
      ∀ (f : String) (lo hi : ℚ) (t : List ℚ),
        (f, lo :: hi :: t) ∈ rs → f ∈ rangeAllowList →
          rangeSat m g? f lo hi := by
  induction rs with
  | nil => simp [rangeCondsOf]
  | cons fp rest ih =>
    obtain ⟨f0, pair⟩ := fp
    rw [rangeCondsOf_cons, List.all_append, Bool.and_eq_true, ih]
    rcases pair with _ | ⟨lo0, rest2⟩
    · constructor
      · intro h f lo hi t hm hfa
        rcases List.mem_cons.mp hm with heq | hmem
        · cases heq
        · exact h.2 f lo hi t hmem hfa
      · intro h
        refine ⟨rfl, fun f lo hi t hmem hfa =>
          h f lo hi t (List.mem_cons_of_mem _ hmem) hfa⟩
    rcases rest2 with _ | ⟨hi0, t0⟩
    · constructor
      · intro h f lo hi t hm hfa
        rcases List.mem_cons.mp hm with heq | hmem
        · cases heq
        · exact h.2 f lo hi t hmem hfa
      · intro h
        refine ⟨rfl, fun f lo hi t hmem hfa =>
          h f lo hi t (List.mem_cons_of_mem _ hmem) hfa⟩
    by_cases hf : f0 ∈ rangeAllowList
    · have hce : condsOfEntry (f0, lo0 :: hi0 :: t0) =
          [if f0 ∈ geometryRangeFields then Cond.geomRange f0 lo0 hi0
           else Cond.manifestRange f0 lo0 hi0] := by
        simp only [condsOfEntry, if_pos hf]
        split <;> rfl
      rw [hce]
      constructor
      · intro h f lo hi t hm hfa
        rcases List.mem_cons.mp hm with heq | hmem
        · obtain ⟨hf1, hp⟩ := Prod.mk.injEq .. ▸ heq
          cases hp
          cases hf1
          have := h.1
          simp only [List.all_cons, List.all_nil, Bool.and_true] at this
          exact (evalCond_range_iff m g? f0 lo0 hi0).mp this
        · exact h.2 f lo hi t hmem hfa
      · intro h
        constructor
        · simp only [List.all_cons, List.all_nil, Bool.and_true]
          exact (evalCond_range_iff m g? f0 lo0 hi0).mpr
            (h f0 lo0 hi0 t0 (List.mem_cons_self _ _) hf)
        · exact fun f lo hi t hmem hfa =>
            h f lo hi t (List.mem_cons_of_mem _ hmem) hfa
    · have hce : condsOfEntry (f0, lo0 :: hi0 :: t0) = [] := by
        simp [condsOfEntry, hf]
      rw [hce]
      constructor
      · intro h f lo hi t hm hfa
        rcases List.mem_cons.mp hm with heq | hmem
        · exact absurd hfa ((Prod.mk.injEq .. ▸ heq).1 ▸ hf)
        · exact h.2 f lo hi t hmem hfa
      · intro h
        refine ⟨rfl, fun f lo hi t hmem hfa =>
          h f lo hi t (List.mem_cons_of_mem _ hmem) hfa⟩

/-- C7: the predicate builder treats every range filter as inclusive at both
ends — a row satisfies a kept range condition exactly when the constrained
column is non-null and `lo ≤ value ≤ hi` — a range entry with fewer than two
bounds contributes nothing, and an entry whose field is outside the fixed
allow-list is silently ignored: the built WHERE clause is unchanged when such
entries are dropped, and the whole clause holds exactly when the non-range
conditions hold and every valid allow-listed range entry is satisfied. -/
theorem c7_range_filters_inclusive_and_permissive (ds : String)
    (body : MoleculesQueryBody) (m : DBMolecule) (g? : Option DBGeometry) :
    build_where ds body =
        build_where ds
          { body with ranges := some (validRangeEntries (body.ranges.getD [])) } ∧
      (evalWhere ds body m g? = true ↔
        (evalWhere ds { body with ranges := none } m g? = true ∧
          ∀ (f : String) (lo hi : ℚ) (t : List ℚ),
            (f, lo :: hi :: t) ∈ body.ranges.getD [] → f ∈ rangeAllowList →
              rangeSat m g? f lo hi)) := by
  refine ⟨build_where_ignores_invalid ds body, ?_⟩
  rw [evalWhere_split ds body m g?, Bool.and_eq_true,
    all_rangeConds_iff m g? (body.ranges.getD [])]

/-! ### Claim C9: per-field aggregates -/

theorem listMin_eq_none_iff (l : List ℚ) : listMin l = none ↔ l = [] := by
  cases l with
  | nil => simp [listMin]
  | cons q t => cases h : listMin t <;> simp [listMin, h]

theorem listMax_eq_none_iff (l : List ℚ) : listMax l = none ↔ l = [] := by
  cases l with
  | nil => simp [listMax]
  | cons q t => cases h : listMax t <;> simp [listMax, h]

theorem listMin_le_of_mem :
    ∀ (l : List ℚ) (m : ℚ), listMin l = some m → ∀ v ∈ l, m ≤ v := by
  intro l
  induction l with
  | nil => intro m h; simp [listMin] at h
  | cons q t ih =>
    intro m h v hv
    cases ht : listMin t with
    | none =>
      have hte : t = [] := (listMin_eq_none_iff t).mp ht
      subst hte
      simp [listMin] at h
      rcases List.mem_cons.mp hv with rfl | hvt
      · exact le_of_eq h.symm
      · cases hvt
    | some mt =>
      simp [listMin, ht] at h
      subst h
      rcases List.mem_cons.mp hv with rfl | hvt
      · exact min_le_left _ _
      · exact le_trans (min_le_right _ _) (ih mt ht v hvt)

theorem listMax_ge_of_mem :
    ∀ (l : List ℚ) (m : ℚ), listMax l = some m → ∀ v ∈ l, v ≤ m := by
  intro l
  induction l with
  | nil => intro m h; simp [listMax] at h
  | cons q t ih =>
    intro m h v hv
    cases ht : listMax t with
    | none =>
      have hte : t = [] := (listMax_eq_none_iff t).mp ht
      subst hte
      simp [listMax] at h
      rcases List.mem_cons.mp hv with rfl | hvt
      · exact le_of_eq h
      · cases hvt
    | some mt =>
      simp [listMax, ht] at h
      subst h
      rcases List.mem_cons.mp hv with rfl | hvt
      · exact le_max_left _ _
      · exact le_trans (ih mt ht v hvt) (le_max_right _ _)

theorem listMin_mem :
    ∀ (l : List ℚ) (m : ℚ), listMin l = some m → m ∈ l := by
  intro l
  induction l with
  | nil => intro m h; simp [listMin] at h
  | cons q t ih =>
    intro m h
    cases ht : listMin t with
    | none =>
      simp [listMin, ht] at h
      exact h ▸ List.mem_cons_self q t
    | some mt =>
      simp [listMin, ht] at h
      subst h
      rcases le_total q mt with hle | hle
      · rw [min_eq_left hle]; exact List.mem_cons_self q t
      · rw [min_eq_right hle]; exact List.mem_cons_of_mem q (ih mt ht)

theorem lookup_keyed_none {β : Type} (g : String → Option β) (f : String) :
    ∀ (names : List String), f ∉ names →
      ((names.filterMap fun n => (g n).map fun b => (n, b)).lookup f) = none := by
  intro names
  induction names with
  | nil => intro _; rfl
  | cons n rest ih =>
    intro hf
    have hfn : f ≠ n := fun h => hf (h ▸ List.mem_cons_self n rest)
    have hfr : f ∉ rest := fun h => hf (List.mem_cons_of_mem n h)
    cases hg : g n with
    | none =>
      simp only [List.filterMap_cons, hg, Option.map_none']
      exact ih hfr
    | some b =>
      simp only [List.filterMap_cons, hg, Option.map_some', List.lookup_cons,
        beq_false_of_ne hfn]
      exact ih hfr

theorem lookup_keyed {β : Type} (g : String → Option β) :
    ∀ (names : List String), names.Nodup → ∀ f ∈ names,
      ((names.filterMap fun n => (g n).map fun b => (n, b)).lookup f) = g f := by
  intro names
  induction names with
  | nil => intro _ f hf; cases hf
  | cons n rest ih =>
    intro hnd f hf
    have hnn : n ∉ rest := (List.nodup_cons.mp hnd).1
    have hnd' : rest.Nodup := (List.nodup_cons.mp hnd).2
    rcases List.mem_cons.mp hf with rfl | hmem
    · cases hg : g f with
      | none =>
        simp only [List.filterMap_cons, hg, Option.map_none']
        exact lookup_keyed_none g f rest hnn
      | some b =>
        simp [List.filterMap_cons, hg, List.lookup_cons]
    · have hfn : f ≠ n := fun h => hnn (h ▸ hmem)
      cases hg : g n with
      | none =>
        simp only [List.filterMap_cons, hg, Option.map_none']
        exact ih hnd' f hmem
      | some b =>
        simp only [List.filterMap_cons, hg, Option.map_some', List.lookup_cons,
          beq_false_of_ne hfn]
        exact ih hnd' f hmem

/-- C9: for each of the eight fixed numeric fields, the aggregate executor
returns an independent (count, min, max) over exactly the rows matching the
filter predicate that have a non-null value for that field: the field is
omitted from the result precisely when no such row exists, and whenever it is
returned its count is the number of such rows, its min and max bound every
such value, and min ≤ max. -/
theorem c9_aggregates_count_min_max (db : QueryDB) (ds : String)
    (body : MoleculesQueryBody) (f : String) (hf : f ∈ aggFieldNames) :
    ((aggregates_molecules db ds body).lookup f = none ↔
        aggVals db ds body f = []) ∧
      ∀ a, (aggregates_molecules db ds body).lookup f = some a →
        a.count = (aggVals db ds body f).length ∧
        a.min ≤ a.max ∧
        ∀ v ∈ aggVals db ds body f, a.min ≤ v ∧ v ≤ a.max := by
  have hnd : aggFieldNames.Nodup := by decide
  have hl : ((aggFieldNames.filterMap fun n =>
      (aggSummaryOf (aggVals db ds body n)).map fun a => (n, a)).lookup f) =
      aggSummaryOf (aggVals db ds body f) :=
    lookup_keyed (fun n => aggSummaryOf (aggVals db ds body n))
      aggFieldNames hnd f hf
  have hagg : aggregates_molecules db ds body =
      aggFieldNames.filterMap fun n =>
        (aggSummaryOf (aggVals db ds body n)).map fun a => (n, a) := rfl
  rw [hagg, hl]
  cases hv : aggVals db ds body f with
  | nil => simp [aggSummaryOf, listMin, listMax]
  | cons q t =>
    have hlo : ∃ lo, listMin (q :: t) = some lo := by
      cases h : listMin t with
      | none => exact ⟨q, by simp [listMin, h]⟩
      | some mt => exact ⟨min q mt, by simp [listMin, h]⟩
    have hhi : ∃ hi, listMax (q :: t) = some hi := by
      cases h : listMax t with
      | none => exact ⟨q, by simp [listMax, h]⟩
      | some mt => exact ⟨max q mt, by simp [listMax, h]⟩
    obtain ⟨lo, hlo⟩ := hlo
    obtain ⟨hi, hhi⟩ := hhi
    rw [show aggSummaryOf (q :: t) = some ⟨(q :: t).length, lo, hi⟩ from by
      simp [aggSummaryOf, hlo, hhi]]
    constructor
    · simp
    · intro a ha
      have ha' : a = ⟨(q :: t).length, lo, hi⟩ := by
        injection ha with h; exact h.symm ▸ rfl
      subst ha'
      refine ⟨rfl, ?_, ?_⟩
      · exact listMax_ge_of_mem (q :: t) hi hhi lo
          (listMin_mem (q :: t) lo hlo)
      · intro v hvm
        exact ⟨listMin_le_of_mem (q :: t) lo hlo v hvm,
          listMax_ge_of_mem (q :: t) hi hhi v hvm⟩

/-- C9 witness: the theorem applied to a one-molecule dataset and the
`molecular_weight` field. -/
theorem c9_aggregates_witness :
    ((aggregates_molecules c8DB "d" {}).lookup "molecular_weight" = none ↔
        aggVals c8DB "d" {} "molecular_weight" = []) ∧
      ∀ a, (aggregates_molecules c8DB "d" {}).lookup "molecular_weight" = some a →
        a.count = (aggVals c8DB "d" {} "molecular_weight").length ∧
        a.min ≤ a.max ∧
        ∀ v ∈ aggVals c8DB "d" {} "molecular_weight", a.min ≤ v ∧ v ≤ a.max :=
  c9_aggregates_count_min_max c8DB "d" {} "molecular_weight" (by decide)

/-! ### Claim C10: geometry range filters exclude NULL despite the LEFT JOIN -/

/-- C10: when a request carries a range filter on a geometry-only field, every
row of any returned page has a matching geometry row whose value for that
field is non-null and lies inside the inclusive bounds — molecules without a
geometry row, or with a null value there, never appear, the LEFT JOIN
notwithstanding. -/
theorem c10_geometry_range_excludes_missing (db : QueryDB) (ds : String)
    (body : MoleculesQueryBody) (f : String) (lo hi : ℚ) (t : List ℚ)
    (limit offset : ℕ) (m : DBMolecule) (g? : Option DBGeometry)
    (hf : f ∈ geometryRangeFields)
    (hr : (f, lo :: hi :: t) ∈ body.ranges.getD [])
    (hm : (m, g?) ∈ query_molecules_page db ds body limit offset) :
    ∃ g, g? = some g ∧ g.cid = m.cid ∧
      ∃ v, geomFieldVal g f = some v ∧ lo ≤ v ∧ v ≤ hi := by
  have h1 : (m, g?) ∈ orderedRows db ds body :=
    List.mem_of_mem_drop (List.mem_of_mem_take hm)
  unfold orderedRows at h1
  have h2 : (m, g?) ∈ matchedRows db ds body :=
    (List.perm_insertionSort _ _).mem_iff.mp h1
  have heval : evalWhere ds body m g? = true := by
    have := (List.mem_filter.mp h2).2
    simpa using this
  cases hranges : body.ranges with
  | none => rw [hranges] at hr; simp at hr
  | some rs =>
    rw [hranges] at hr
    simp only [Option.getD_some] at hr
    have hfa : f ∈ rangeAllowList := by
      show f ∈ manifestRangeFields ++ geometryRangeFields
      exact List.mem_append.mpr (Or.inr hf)
    have hne : rs ≠ [] := fun h => by subst h; cases hr
    have hcond : Cond.geomRange f lo hi ∈ build_where ds body := by
      unfold build_where
      rw [hranges]
      apply List.mem_append_right
      show Cond.geomRange f lo hi ∈ (if rs ≠ [] then rangeCondsOf rs else [])
      rw [if_pos hne]
      unfold rangeCondsOf
      refine List.mem_flatMap.mpr ⟨(f, lo :: hi :: t), hr, ?_⟩
      show Cond.geomRange f lo hi ∈
        (if f ∈ rangeAllowList then
          (if f ∈ geometryRangeFields then [Cond.geomRange f lo hi]
           else [Cond.manifestRange f lo hi])
         else [])
      rw [if_pos hfa, if_pos hf]
      exact List.mem_singleton.mpr rfl
    have hc : evalCond m g? (Cond.geomRange f lo hi) = true :=
      List.all_eq_true.mp heval _ hcond
    cases g? with
    | none => simp [evalCond] at hc
    | some g =>
      simp only [evalCond, Bool.and_eq_true, beq_iff_eq] at hc
      obtain ⟨hcid, hrest⟩ := hc
      cases hgv : geomFieldVal g f with
      | none => rw [hgv] at hrest; cases hrest
      | some v =>
        rw [hgv] at hrest
        simp only [Bool.and_eq_true, decide_eq_true_eq] at hrest
        exact ⟨g, rfl, hcid, v, hgv, hrest.1, hrest.2⟩

/-- The one-molecule database used by the C10 witness. -/
def c10Mol : DBMolecule := { dataset_id := "d", cid := 1 }

/-- Its geometry row, with a non-null energy. -/
def c10Geom : DBGeometry := { dataset_id := "d", cid := 1, mmff94_energy := some 5 }

/-- A request with a geometry-field range filter. -/
def c10Body : MoleculesQueryBody :=
  { ranges := some [("mmff94_energy", [1, 10])] }

/-- The C10 witness database. -/
def c10DB : QueryDB := { molecules := [c10Mol], geometry := [c10Geom] }

/-- C10 witness: the theorem applied to the concrete one-row query, every
hypothesis discharged by evaluation. -/
theorem c10_geometry_range_witness :
    ∃ g, some c10Geom = some g ∧ g.cid = c10Mol.cid ∧
      ∃ v, geomFieldVal g "mmff94_energy" = some v ∧ 1 ≤ v ∧ v ≤ 10 :=
  c10_geometry_range_excludes_missing c10DB "d" c10Body "mmff94_energy" 1 10 []
    100 0 c10Mol (some c10Geom) (by decide) (by decide) (by decide)

end DataViz
